import Mathlib

/-!
Shallow embedding of the chat backend `src/index.js` (Express routes over a
PostgreSQL store plus a WebSocket connection registry and notification
dispatcher), together with theorems about the embedded operations.

Conventions of the embedding:
* A table is a `List` of rows in the physical order the store delivers them;
  `SERIAL` columns are modelled by a counter in the database state, and
  `CURRENT_TIMESTAMP` by a clock field (`agora`).  Timestamps are `Nat`.
* `ORDER BY` is modelled by `List.insertionSort` (a stable sort) and
  `DISTINCT ON (k) ... ORDER BY k, t DESC` by the sort followed by taking the
  first row of every consecutive group of equal `k`.
* Fallible routes return `Except Erro` together with the post-state.
* JavaScript runtime values that can serve as `Map` keys (the parsed
  `usuario_id` of a register frame) are modelled by `Json`; `Map` equality is
  JavaScript `SameValueZero`, i.e. plain equality of `Json` values.  JSON
  numbers are modelled as integers (the frames of this protocol only carry
  integral ids).
-/

/-- A row of the `usuarios` table (`criarTabelas`): `id SERIAL PRIMARY KEY`,
`nome VARCHAR(100) NOT NULL`, `telefone VARCHAR(20) UNIQUE NOT NULL`. -/
structure Usuario where
  id : Nat
  nome : String
  telefone : String
deriving DecidableEq

/-- A row of the `mensagens` table (`criarTabelas`): `id SERIAL PRIMARY KEY`,
`remetente_id INT NOT NULL`, `destinatario_id INT NOT NULL`,
`texto TEXT NOT NULL`, `enviado_em TIMESTAMP DEFAULT CURRENT_TIMESTAMP`,
with foreign keys from both ids into `usuarios(id)`. -/
structure Mensagem where
  id : Nat
  remetente_id : Nat
  destinatario_id : Nat
  texto : String
  enviado_em : Nat
deriving DecidableEq

/-- The state of the relational store: both tables (rows in the physical
order the store scans them), the two `SERIAL` sequences, and the clock that
supplies `CURRENT_TIMESTAMP`. -/
structure Banco where
  usuarios : List Usuario
  mensagens : List Mensagem
  seqUsuarios : Nat
  seqMensagens : Nat
  agora : Nat
deriving DecidableEq

/-- The errors the routes surface: the 400 of `POST /usuarios`
(unique-constraint violation or missing column), the 400 of `POST /mensagens`
(foreign-key violation or missing column), and the exceptions the WebSocket
message handler can raise (`JSON.parse` throwing, property access on `null`). -/
inductive Erro where
  | usuarioJaExiste
  | erroAoEnviarMensagem
  | jsonInvalido
  | excecaoEmNulo
deriving DecidableEq

/-- `POST /usuarios`: `INSERT INTO usuarios (nome, telefone) VALUES ($1,$2)
RETURNING *`.  The insert fails (caught and surfaced as 400) when the UNIQUE
constraint on `telefone` is violated or a NOT NULL column is absent; note
that NOT NULL does not reject empty strings.  On failure the table is
unchanged. -/
def criarUsuario (db : Banco) (nome telefone : Option String) :
    Except Erro Usuario × Banco :=
  match nome, telefone with
  | some n, some t =>
    if db.usuarios.any (fun u => u.telefone = t) then
      (.error .usuarioJaExiste, db)
    else
      let u : Usuario := { id := db.seqUsuarios, nome := n, telefone := t }
      (.ok u, { db with usuarios := db.usuarios ++ [u],
                        seqUsuarios := db.seqUsuarios + 1 })
  | _, _ => (.error .usuarioJaExiste, db)

/-- The comparison `ORDER BY nome` uses on `usuarios`. -/
def ordemNome (a b : Usuario) : Prop := a.nome ≤ b.nome

instance : DecidableRel ordemNome := fun a b =>
  inferInstanceAs (Decidable (a.nome ≤ b.nome))

instance : IsTotal Usuario ordemNome := ⟨fun a b => le_total a.nome b.nome⟩

instance : IsTrans Usuario ordemNome := ⟨fun _ _ _ => le_trans⟩

/-- `GET /usuarios`: `SELECT * FROM usuarios ORDER BY nome`. -/
def listarUsuarios (db : Banco) : List Usuario :=
  List.insertionSort ordemNome db.usuarios

/-- `POST /mensagens`: `INSERT INTO mensagens (remetente_id, destinatario_id,
texto) VALUES ($1,$2,$3) RETURNING *`.  The insert fails (caught as 400) when
a NOT NULL column is absent or a foreign key does not reference an existing
user; `texto TEXT NOT NULL` accepts the empty string.  The new row receives
the next `SERIAL` id and the current timestamp. -/
def criarMensagem (db : Banco) (remetente_id destinatario_id : Option Nat)
    (texto : Option String) : Except Erro Mensagem × Banco :=
  match remetente_id, destinatario_id, texto with
  | some r, some d, some t =>
    if db.usuarios.any (fun u => u.id = r) && db.usuarios.any (fun u => u.id = d) then
      let m : Mensagem := { id := db.seqMensagens, remetente_id := r,
                            destinatario_id := d, texto := t,
                            enviado_em := db.agora }
      (.ok m, { db with mensagens := db.mensagens ++ [m],
                        seqMensagens := db.seqMensagens + 1 })
    else (.error .erroAoEnviarMensagem, db)
  | _, _, _ => (.error .erroAoEnviarMensagem, db)

/-- `JOIN usuarios u ON ... = u.id` on a primary-key column: the unique
matching row, if any. -/
def buscaUsuario (usuarios : List Usuario) (i : Nat) : Option Usuario :=
  usuarios.find? (fun u => u.id = i)

/-- A result row of `GET /mensagens/:usuario1_id/:usuario2_id`: `m.*` plus
`u1.nome as remetente_nome` and `u2.nome as destinatario_nome`. -/
structure LinhaMensagem where
  id : Nat
  remetente_id : Nat
  destinatario_id : Nat
  texto : String
  enviado_em : Nat
  remetente_nome : String
  destinatario_nome : String
deriving DecidableEq

/-- One message's contribution to `GET /mensagens/:usuario1_id/:usuario2_id`:
the `JOIN`s with `usuarios` on both ids and the `WHERE
(m.remetente_id = $1 AND m.destinatario_id = $2) OR
(m.remetente_id = $2 AND m.destinatario_id = $1)` filter. -/
def linhaConversaDe (usuarios : List Usuario) (usuario1_id usuario2_id : Nat)
    (m : Mensagem) : Option LinhaMensagem :=
  match buscaUsuario usuarios m.remetente_id,
        buscaUsuario usuarios m.destinatario_id with
  | some u1, some u2 =>
    if (m.remetente_id = usuario1_id ∧ m.destinatario_id = usuario2_id)
        ∨ (m.remetente_id = usuario2_id ∧ m.destinatario_id = usuario1_id) then
      some { id := m.id, remetente_id := m.remetente_id,
             destinatario_id := m.destinatario_id, texto := m.texto,
             enviado_em := m.enviado_em, remetente_nome := u1.nome,
             destinatario_nome := u2.nome }
    else none
  | _, _ => none

/-- The comparison `ORDER BY m.enviado_em ASC` uses. -/
def ordemAsc (a b : LinhaMensagem) : Prop := a.enviado_em ≤ b.enviado_em

instance : DecidableRel ordemAsc := fun a b =>
  inferInstanceAs (Decidable (a.enviado_em ≤ b.enviado_em))

instance : IsTotal LinhaMensagem ordemAsc :=
  ⟨fun a b => Nat.le_total a.enviado_em b.enviado_em⟩

instance : IsTrans LinhaMensagem ordemAsc := ⟨fun _ _ _ => Nat.le_trans⟩

/-- `GET /mensagens/:usuario1_id/:usuario2_id`: the joined and filtered
messages, `ORDER BY m.enviado_em ASC`. -/
def buscarConversa (db : Banco) (usuario1_id usuario2_id : Nat) :
    List LinhaMensagem :=
  List.insertionSort ordemAsc
    (db.mensagens.filterMap (linhaConversaDe db.usuarios usuario1_id usuario2_id))

/-- A result row of `GET /conversas/:usuario_id`. -/
structure Conversa where
  outro_usuario_id : Nat
  outro_usuario_nome : String
  ultima_mensagem : String
  enviado_em : Nat
deriving DecidableEq

/-- One message's contribution to the inner subquery of
`GET /conversas/:usuario_id`: the two `CASE WHEN m.remetente_id = $1`
expressions, the joins with `usuarios`, and the
`WHERE m.remetente_id = $1 OR m.destinatario_id = $1` filter. -/
def linhaResumoDe (usuarios : List Usuario) (usuario_id : Nat) (m : Mensagem) :
    Option Conversa :=
  match buscaUsuario usuarios m.remetente_id,
        buscaUsuario usuarios m.destinatario_id with
  | some u1, some u2 =>
    if m.remetente_id = usuario_id ∨ m.destinatario_id = usuario_id then
      some { outro_usuario_id :=
               if m.remetente_id = usuario_id then m.destinatario_id
               else m.remetente_id,
             outro_usuario_nome :=
               if m.remetente_id = usuario_id then u2.nome else u1.nome,
             ultima_mensagem := m.texto,
             enviado_em := m.enviado_em }
    else none
  | _, _ => none

/-- The inner subquery's `ORDER BY m.enviado_em DESC`. -/
def ordemDesc (a b : Conversa) : Prop := b.enviado_em ≤ a.enviado_em

instance : DecidableRel ordemDesc := fun a b =>
  inferInstanceAs (Decidable (b.enviado_em ≤ a.enviado_em))

instance : IsTotal Conversa ordemDesc :=
  ⟨fun a b => Nat.le_total b.enviado_em a.enviado_em⟩

instance : IsTrans Conversa ordemDesc :=
  ⟨fun _ _ _ h1 h2 => Nat.le_trans h2 h1⟩

/-- The outer query's `ORDER BY outro_usuario_id, enviado_em DESC` (the order
`DISTINCT ON (outro_usuario_id)` selects first rows under). -/
def ordemDistinta (a b : Conversa) : Prop :=
  a.outro_usuario_id < b.outro_usuario_id ∨
    (a.outro_usuario_id = b.outro_usuario_id ∧ b.enviado_em ≤ a.enviado_em)

instance : DecidableRel ordemDistinta := fun a b =>
  inferInstanceAs (Decidable (a.outro_usuario_id < b.outro_usuario_id ∨
    (a.outro_usuario_id = b.outro_usuario_id ∧ b.enviado_em ≤ a.enviado_em)))

instance : IsTotal Conversa ordemDistinta := by
  constructor
  intro a b
  unfold ordemDistinta
  omega

instance : IsTrans Conversa ordemDistinta := by
  constructor
  intro a b c hab hbc
  unfold ordemDistinta at hab hbc ⊢
  omega

/-- After a row with `outro_usuario_id = k` has been emitted: drop the rest
of its run, then keep the first row of every later run. -/
def aposPrimeiro (k : Nat) : List Conversa → List Conversa
  | [] => []
  | b :: resto =>
    if b.outro_usuario_id = k then aposPrimeiro k resto
    else b :: aposPrimeiro b.outro_usuario_id resto

/-- `SELECT DISTINCT ON (outro_usuario_id)` over rows already sorted by
`outro_usuario_id, enviado_em DESC`: keep the first row of every consecutive
run of equal `outro_usuario_id`. -/
def distinctOnOutro : List Conversa → List Conversa
  | [] => []
  | a :: resto => a :: aposPrimeiro a.outro_usuario_id resto

/-- The rows of the inner subquery of `GET /conversas/:usuario_id`, in table
order. -/
def linhasResumo (db : Banco) (usuario_id : Nat) : List Conversa :=
  db.mensagens.filterMap (linhaResumoDe db.usuarios usuario_id)

/-- The subquery rows after the inner `ORDER BY m.enviado_em DESC` and the
outer `ORDER BY outro_usuario_id, enviado_em DESC`. -/
def ordenadasResumo (db : Banco) (usuario_id : Nat) : List Conversa :=
  List.insertionSort ordemDistinta
    (List.insertionSort ordemDesc (linhasResumo db usuario_id))

/-- `GET /conversas/:usuario_id`: the inner subquery (join, filter,
`ORDER BY enviado_em DESC`), then the outer
`SELECT DISTINCT ON (outro_usuario_id) ... ORDER BY outro_usuario_id,
enviado_em DESC`. -/
def buscarUltimasConversas (db : Banco) (usuario_id : Nat) : List Conversa :=
  distinctOnOutro (ordenadasResumo db usuario_id)

/-- Row order by counterparty id alone, strictly: the order the rows of
`GET /conversas/:usuario_id` actually come out in. -/
def ordemEstrita (a b : Conversa) : Prop :=
  a.outro_usuario_id < b.outro_usuario_id

/-- `m.remetente_id = $1 OR m.destinatario_id = $1`: the message involves the
given user. -/
def envolve (usuario_id : Nat) (m : Mensagem) : Prop :=
  m.remetente_id = usuario_id ∨ m.destinatario_id = usuario_id

/-- `CASE WHEN m.remetente_id = $1 THEN m.destinatario_id ELSE
m.remetente_id END`: the counterparty of a message relative to a user. -/
def contraparte (usuario_id : Nat) (m : Mensagem) : Nat :=
  if m.remetente_id = usuario_id then m.destinatario_id else m.remetente_id

/-- A JavaScript runtime value as far as this program manipulates them: the
values `JSON.parse` can produce (numbers restricted to integers, the only
kind the register frames carry) plus `undefined`, the result of accessing an
absent property.  Equality of these values is JavaScript strict equality,
which is also the key equality of `Map`. -/
inductive Json where
  | nulo
  | booleano (b : Bool)
  | numero (n : Int)
  | texto (s : String)
  | listaNil
  | listaCons (item resto : Json)
  | objetoNil
  | objetoCons (chave : String) (valor resto : Json)
  | indefinido
deriving DecidableEq

/-- JavaScript property access `v.chave`: on an object, the value of the
property (for duplicate keys `JSON.parse` keeps the last one, so the later
occurrence wins); on any other defined value, `undefined`.  (Access on `null`
throws; callers handle that case before calling this.) -/
def acessarCampo : Json → String → Json
  | .objetoCons k valor resto, chave =>
    match acessarCampo resto chave with
    | .indefinido => if k = chave then valor else .indefinido
    | achado => achado
  | _, _ => .indefinido

/-- The connection registry `const conexoes = new Map()`: insertion-ordered
key/value pairs, keys unique.  Values are connection handles, modelled as the
index of the socket in the transport state. -/
abbrev Conexoes : Type := List (Json × Nat)

/-- `conexoes.set(chave, ws)`: replace the value of an existing key in place,
or append a new entry. -/
def definirConexao (cnx : Conexoes) (chave : Json) (ws : Nat) : Conexoes :=
  if (List.any cnx fun e => e.1 = chave) then
    List.map (fun e => if e.1 = chave then (chave, ws) else e) cnx
  else cnx ++ [(chave, ws)]

/-- `conexoes.get(chave)`: the value stored under a strictly-equal key. -/
def obterConexao (cnx : Conexoes) (chave : Json) : Option Nat :=
  (List.find? (fun e => e.1 = chave) cnx).map (fun e => e.2)

/-- `conexoes.delete(chave)`. -/
def removerConexao (cnx : Conexoes) (chave : Json) : Conexoes :=
  List.filter (fun e => ¬ e.1 = chave) cnx

/-- The iteration of the `ws.on('close')` handler: visit each entry of the
map in order and delete it from the current map when its value is the closing
socket. -/
def percorrerFechamento (ws : Nat) : List (Json × Nat) → Conexoes → Conexoes
  | [], atual => atual
  | e :: resto, atual =>
    percorrerFechamento ws resto
      (if e.2 = ws then removerConexao atual e.1 else atual)

/-- The `ws.on('close')` handler: iterate over the entries of the live map
(the iteration visits every entry present when it started, deletions of
already-visited entries notwithstanding) and delete each entry whose value is
the closing socket. -/
def aoFechar (cnx : Conexoes) (ws : Nat) : Conexoes :=
  percorrerFechamento ws cnx cnx

/-- The state of one client socket: its `readyState` and the frames pushed to
it so far. -/
structure Soquete where
  readyState : Nat
  enviadas : List String
deriving DecidableEq

/-- `WebSocket.OPEN`. -/
def wsABERTO : Nat := 1

/-- The transport state: each live socket, keyed by its handle. -/
abbrev Soquetes : Type := List (Nat × Soquete)

/-- `ws.send(quadro)` on the socket with handle `ws`. -/
def enviarQuadro (soquetes : Soquetes) (ws : Nat) (quadro : String) : Soquetes :=
  List.map
    (fun e => if e.1 = ws then
        (e.1, { e.2 with enviadas := e.2.enviadas ++ [quadro] })
      else e)
    soquetes

/-- The socket a handle refers to. -/
def buscarSoquete (soquetes : Soquetes) (ws : Nat) : Option Soquete :=
  (List.find? (fun e => e.1 = ws) soquetes).map (fun e => e.2)

/-- The escaping `JSON.stringify` applies inside a string (quotes and
backslashes; the texts of this protocol). -/
def escaparJson (s : String) : String :=
  String.mk (s.data.foldr
    (fun c acc =>
      if c = '"' then '\\' :: '"' :: acc
      else if c = '\\' then '\\' :: '\\' :: acc
      else c :: acc) [])

/-- `JSON.stringify(mensagem)` for a row of `mensagens`. -/
def serializarMensagem (m : Mensagem) : String :=
  "\x7b\"id\":" ++ toString m.id ++
    ",\"remetente_id\":" ++ toString m.remetente_id ++
    ",\"destinatario_id\":" ++ toString m.destinatario_id ++
    ",\"texto\":\"" ++ escaparJson m.texto ++
    "\",\"enviado_em\":" ++ toString m.enviado_em ++ "\x7d"

/-- `notificarNovaMensagem(mensagem)`: look the recipient id (a number in the
persisted row) up in the registry; if a connection is found and its
`readyState` is `OPEN`, push the serialized message to it; otherwise do
nothing. -/
def notificarNovaMensagem (cnx : Conexoes) (soquetes : Soquetes)
    (m : Mensagem) : Soquetes :=
  match obterConexao cnx (Json.numero m.destinatario_id) with
  | some ws =>
    match buscarSoquete soquetes ws with
    | some sq =>
      if sq.readyState = wsABERTO then
        enviarQuadro soquetes ws (serializarMensagem m)
      else soquetes
    | none => soquetes
  | none => soquetes

/-- The whole `POST /mensagens` handler: insert, and only on success hand the
persisted row to the dispatcher.  The HTTP response (first component) never
depends on the registry or the transport. -/
def enviarMensagemRota (db : Banco) (cnx : Conexoes) (soquetes : Soquetes)
    (remetente_id destinatario_id : Option Nat) (texto : Option String) :
    (Except Erro Mensagem × Banco) × Soquetes :=
  match criarMensagem db remetente_id destinatario_id texto with
  | (.ok m, db2) => ((.ok m, db2), notificarNovaMensagem cnx soquetes m)
  | (.error e, db2) => ((.error e, db2), soquetes)

/-- The opening brace character. -/
def chaveAbre : Char := Char.ofNat 123

/-- The closing brace character. -/
def chaveFecha : Char := Char.ofNat 125

/-- JSON insignificant whitespace. -/
def pularEspacos : List Char → List Char
  | [] => []
  | c :: resto =>
    if c = ' ' ∨ c = '\t' ∨ c = '\n' ∨ c = '\r' then pularEspacos resto
    else c :: resto

/-- An ASCII decimal digit. -/
def ehDigito (c : Char) : Bool := '0' ≤ c ∧ c ≤ '9'

/-- The longest digit prefix, and the rest. -/
def lerDigitos : List Char → List Char × List Char
  | [] => ([], [])
  | c :: resto =>
    if ehDigito c then
      let r := lerDigitos resto
      (c :: r.1, r.2)
    else ([], c :: resto)

/-- The numeric value of a digit string. -/
def valorNumero (ds : List Char) : Nat :=
  ds.foldl (fun acc c => 10 * acc + (c.toNat - '0'.toNat)) 0

/-- The value of a hexadecimal digit, if any. -/
def valorHex (c : Char) : Option Nat :=
  if '0' ≤ c ∧ c ≤ '9' then some (c.toNat - '0'.toNat)
  else if 'a' ≤ c ∧ c ≤ 'f' then some (c.toNat - 'a'.toNat + 10)
  else if 'A' ≤ c ∧ c ≤ 'F' then some (c.toNat - 'A'.toNat + 10)
  else none

/-- A single-character JSON escape (everything except `\u`). -/
def desescapar (c : Char) : Option Char :=
  if c = '"' then some '"'
  else if c = '\\' then some '\\'
  else if c = '/' then some '/'
  else if c = 'b' then some (Char.ofNat 8)
  else if c = 'f' then some (Char.ofNat 12)
  else if c = 'n' then some '\n'
  else if c = 'r' then some '\r'
  else if c = 't' then some '\t'
  else none

/-- The body of a JSON string, after its opening quote: the decoded
characters and the input after the closing quote.  Control characters are
invalid, escapes are decoded. -/
def lerCadeia : List Char → Option (List Char × List Char)
  | [] => none
  | c :: resto =>
    if c = '"' then some ([], resto)
    else if c = '\\' then
      match resto with
      | [] => none
      | e :: resto2 =>
        if e = 'u' then
          match resto2 with
          | h1 :: h2 :: h3 :: h4 :: resto3 =>
            match valorHex h1, valorHex h2, valorHex h3, valorHex h4 with
            | some a, some b, some c2, some d =>
              (lerCadeia resto3).map
                (fun r => (Char.ofNat (4096 * a + 256 * b + 16 * c2 + d) :: r.1, r.2))
            | _, _, _, _ => none
          | _ => none
        else
          match desescapar e with
          | some ce => (lerCadeia resto2).map (fun r => (ce :: r.1, r.2))
          | none => none
    else if c.toNat < 32 then none
    else (lerCadeia resto).map (fun r => (c :: r.1, r.2))

/-- A JSON number at the head of the input: optional minus sign, digits with
no superfluous leading zero.  Fractions and exponents are not modelled (the
embedding's numbers are the integral ids of this protocol), so a number
continuing with `.`, `e` or `E` is rejected. -/
def lerNumero (cs : List Char) : Option (Json × List Char) :=
  match cs with
  | [] => none
  | c :: resto =>
    let corpo := if c = '-' then resto else c :: resto
    match lerDigitos corpo with
    | ([], _) => none
    | (ds, resto2) =>
      if 1 < ds.length ∧ ds.head? = some '0' then none
      else
        match resto2 with
        | p :: _ =>
          if p = '.' ∨ p = 'e' ∨ p = 'E' then none
          else some (.numero (if c = '-' then -(valorNumero ds : Int)
                              else (valorNumero ds : Int)), resto2)
        | [] => some (.numero (if c = '-' then -(valorNumero ds : Int)
                               else (valorNumero ds : Int)), resto2)

mutual

/-- A JSON value at the head of the input, fuelled recursive descent. -/
def analisarValor : Nat → List Char → Option (Json × List Char)
  | 0, _ => none
  | comb + 1, entrada =>
    match pularEspacos entrada with
    | [] => none
    | c :: resto =>
      if c = 'n' then
        match resto with
        | 'u' :: 'l' :: 'l' :: resto2 => some (.nulo, resto2)
        | _ => none
      else if c = 't' then
        match resto with
        | 'r' :: 'u' :: 'e' :: resto2 => some (.booleano true, resto2)
        | _ => none
      else if c = 'f' then
        match resto with
        | 'a' :: 'l' :: 's' :: 'e' :: resto2 => some (.booleano false, resto2)
        | _ => none
      else if c = '"' then
        (lerCadeia resto).map (fun r => (.texto (String.mk r.1), r.2))
      else if c = '[' then
        match pularEspacos resto with
        | [] => none
        | c2 :: resto2 =>
          if c2 = ']' then some (.listaNil, resto2)
          else (analisarItens comb (c2 :: resto2)).map
            (fun r => (r.1, r.2))
      else if c = chaveAbre then
        match pularEspacos resto with
        | [] => none
        | c2 :: resto2 =>
          if c2 = chaveFecha then some (.objetoNil, resto2)
          else (analisarCampos comb (c2 :: resto2)).map
            (fun r => (r.1, r.2))
      else if c = '-' ∨ ehDigito c then lerNumero (c :: resto)
      else none

/-- The non-empty element list of a JSON array, up to and including `]`. -/
def analisarItens : Nat → List Char → Option (Json × List Char)
  | 0, _ => none
  | comb + 1, entrada =>
    match analisarValor comb entrada with
    | none => none
    | some (v, resto) =>
      match pularEspacos resto with
      | [] => none
      | c :: resto2 =>
        if c = ',' then
          (analisarItens comb resto2).map (fun r => (.listaCons v r.1, r.2))
        else if c = ']' then some (.listaCons v .listaNil, resto2)
        else none

/-- The non-empty field list of a JSON object, up to and including the
closing brace. -/
def analisarCampos : Nat → List Char → Option (Json × List Char)
  | 0, _ => none
  | comb + 1, entrada =>
    match pularEspacos entrada with
    | [] => none
    | c :: resto =>
      if c = '"' then
        match lerCadeia resto with
        | none => none
        | some (chave, resto2) =>
          match pularEspacos resto2 with
          | ':' :: resto3 =>
            match analisarValor comb resto3 with
            | none => none
            | some (v, resto4) =>
              match pularEspacos resto4 with
              | [] => none
              | c2 :: resto5 =>
                if c2 = ',' then
                  (analisarCampos comb resto5).map
                    (fun r => (.objetoCons (String.mk chave) v r.1, r.2))
                else if c2 = chaveFecha then
                  some (.objetoCons (String.mk chave) v .objetoNil, resto5)
                else none
          | _ => none
      else none

end

/-- `JSON.parse`: one JSON value surrounded only by whitespace.  (Faithful to
`JSON.parse` except that numbers are restricted to integers, as documented at
`lerNumero`.) -/
def analisarJson (s : String) : Option Json :=
  match analisarValor (2 * s.length + 2) s.data with
  | some (v, resto) => if pularEspacos resto = [] then some v else none
  | none => none

/-- The `ws.on('message')` handler: `JSON.parse` the frame (an invalid frame
makes it throw, nothing catches the exception), then, when
`dados.tipo === 'registrar'`, execute `conexoes.set(dados.usuario_id, ws)`.
A parsed `null` also escapes as an exception: property access on `null`
throws a `TypeError`. -/
def aoReceberMensagem (cnx : Conexoes) (ws : Nat) (quadro : String) :
    Except Erro Conexoes :=
  match analisarJson quadro with
  | none => .error .jsonInvalido
  | some .nulo => .error .excecaoEmNulo
  | some dados =>
    if acessarCampo dados "tipo" = Json.texto "registrar" then
      .ok (definirConexao cnx (acessarCampo dados "usuario_id") ws)
    else .ok cnx

/-! ### Helper lemmas about the connection registry and the transport -/

theorem obterConexao_substituida (cnx : Conexoes) (chave : Json) (ws : Nat)
    (h : ∃ e ∈ cnx, e.1 = chave) :
    obterConexao (List.map (fun e => if e.1 = chave then (chave, ws) else e) cnx)
      chave = some ws := by
  induction cnx with
  | nil => simp at h
  | cons e resto ih =>
    by_cases he : e.1 = chave
    · simp [obterConexao, List.find?, he]
    · rcases h with ⟨e2, he2, hk⟩
      rcases List.mem_cons.mp he2 with rfl | he2
      · exact absurd hk he
      · simpa [obterConexao, List.find?, he] using ih ⟨e2, he2, hk⟩

theorem obterConexao_anexada (cnx : Conexoes) (chave : Json) (ws : Nat)
    (h : ∀ e ∈ cnx, ¬ e.1 = chave) :
    obterConexao (cnx ++ [(chave, ws)]) chave = some ws := by
  induction cnx with
  | nil => simp [obterConexao, List.find?]
  | cons e resto ih =>
    have he : ¬ e.1 = chave := h e (List.mem_cons_self e resto)
    simpa [obterConexao, List.find?, he] using
      ih (fun e2 he2 => h e2 (List.mem_cons_of_mem e he2))

theorem obterConexao_definida (cnx : Conexoes) (chave : Json) (ws : Nat) :
    obterConexao (definirConexao cnx chave ws) chave = some ws := by
  unfold definirConexao
  split
  · rename_i h
    rcases List.any_eq_true.mp h with ⟨e, he, hk⟩
    exact obterConexao_substituida cnx chave ws ⟨e, he, of_decide_eq_true hk⟩
  · rename_i h
    refine obterConexao_anexada cnx chave ws (fun e he hk => h ?_)
    exact List.any_eq_true.mpr ⟨e, he, decide_eq_true hk⟩

theorem obterConexao_ausente (cnx : Conexoes) (chave : Json)
    (h : ∀ e ∈ cnx, e.1 ≠ chave) : obterConexao cnx chave = none := by
  unfold obterConexao
  rw [List.find?_eq_none.mpr]
  · rfl
  · intro e he
    simpa using h e he

theorem notificar_sem_registro (cnx : Conexoes) (soquetes : Soquetes)
    (m : Mensagem) (h : ∀ e ∈ cnx, e.1 ≠ Json.numero m.destinatario_id) :
    notificarNovaMensagem cnx soquetes m = soquetes := by
  unfold notificarNovaMensagem
  rw [obterConexao_ausente cnx _ h]

theorem buscarSoquete_enviada (soquetes : Soquetes) (ws : Nat) (q : String)
    (sq : Soquete) (h : buscarSoquete soquetes ws = some sq) :
    buscarSoquete (enviarQuadro soquetes ws q) ws
      = some { sq with enviadas := sq.enviadas ++ [q] } := by
  induction soquetes with
  | nil => simp [buscarSoquete] at h
  | cons e resto ih =>
    by_cases he : e.1 = ws
    · unfold buscarSoquete at h ⊢
      unfold enviarQuadro
      rw [List.find?_cons_of_pos _ (by simpa using he)] at h
      simp only [List.map_cons, if_pos he]
      rw [List.find?_cons_of_pos _ (by simpa using he)]
      simp only [Option.map_some', Option.some.injEq] at h ⊢
      rw [← h]
    · unfold buscarSoquete at h ⊢
      unfold enviarQuadro
      rw [List.find?_cons_of_neg _ (by simpa using he)] at h
      simp only [List.map_cons, if_neg he]
      rw [List.find?_cons_of_neg _ (by simpa using he)]
      exact ih h

theorem buscarSoquete_outra (soquetes : Soquetes) (ws ws2 : Nat) (q : String)
    (h : ws2 ≠ ws) :
    buscarSoquete (enviarQuadro soquetes ws q) ws2 = buscarSoquete soquetes ws2 := by
  induction soquetes with
  | nil => rfl
  | cons e resto ih =>
    by_cases he : e.1 = ws
    · have hne : ¬ e.1 = ws2 := by omega
      unfold buscarSoquete enviarQuadro
      simp only [List.map_cons, if_pos he]
      rw [List.find?_cons_of_neg _ (by simpa using hne),
        List.find?_cons_of_neg _ (by simpa using hne)]
      exact ih
    · by_cases he2 : e.1 = ws2
      · unfold buscarSoquete enviarQuadro
        simp only [List.map_cons, if_neg he]
        rw [List.find?_cons_of_pos _ (by simpa using he2),
          List.find?_cons_of_pos _ (by simpa using he2)]
      · unfold buscarSoquete enviarQuadro
        simp only [List.map_cons, if_neg he]
        rw [List.find?_cons_of_neg _ (by simpa using he2),
          List.find?_cons_of_neg _ (by simpa using he2)]
        exact ih

theorem percorrer_mem (ws : Nat) (l : List (Json × Nat)) :
    ∀ (acc : Conexoes) (x : Json × Nat),
      x ∈ percorrerFechamento ws l acc ↔
        x ∈ acc ∧ ¬ x.1 ∈ (l.filter (fun e => e.2 = ws)).map Prod.fst := by
  induction l with
  | nil => intro acc x; simp [percorrerFechamento]
  | cons e resto ih =>
    intro acc x
    by_cases he : e.2 = ws
    · rw [show percorrerFechamento ws (e :: resto) acc
          = percorrerFechamento ws resto (removerConexao acc e.1) by
            simp [percorrerFechamento, he]]
      rw [ih]
      unfold removerConexao
      simp [List.filter_cons, he, List.mem_filter, not_or]
      tauto
    · rw [show percorrerFechamento ws (e :: resto) acc
          = percorrerFechamento ws resto acc by
            simp [percorrerFechamento, he]]
      rw [ih]
      simp [List.filter_cons, he]

theorem percorrer_sem_alvo (ws : Nat) (l : List (Json × Nat))
    (h : ∀ e ∈ l, e.2 ≠ ws) :
    ∀ acc : Conexoes, percorrerFechamento ws l acc = acc := by
  induction l with
  | nil => intro acc; rfl
  | cons e resto ih =>
    intro acc
    have he : ¬ e.2 = ws := h e (List.mem_cons_self e resto)
    rw [show percorrerFechamento ws (e :: resto) acc
        = percorrerFechamento ws resto acc by simp [percorrerFechamento, he]]
    exact ih (fun e2 he2 => h e2 (List.mem_cons_of_mem e he2)) acc

theorem chave_unica (cnx : Conexoes) (hnd : (cnx.map Prod.fst).Nodup)
    (x y : Json × Nat) (hx : x ∈ cnx) (hy : y ∈ cnx) (hk : x.1 = y.1) :
    x = y := by
  induction cnx with
  | nil => cases hx
  | cons e resto ih =>
    rw [List.map_cons, List.nodup_cons] at hnd
    rcases List.mem_cons.mp hx with rfl | hx2
    · rcases List.mem_cons.mp hy with rfl | hy2
      · rfl
      · exact absurd (List.mem_map_of_mem Prod.fst hy2)
          (fun hmem => hnd.1 (hk ▸ hmem))
    · rcases List.mem_cons.mp hy with rfl | hy2
      · exact absurd (List.mem_map_of_mem Prod.fst hx2)
          (fun hmem => hnd.1 (hk ▸ hmem))
      · exact ih hnd.2 hx2 hy2

/-! ### Claim theorems: connection registry and dispatcher -/

/-- C6: when a connection handle closes, the `ws.on('close')` handler removes
every registry entry whose value is that handle — however many user ids were
(re-)registered to it — and a handle that never registered (no entry carries
its value) leaves the registry unchanged.  The hypothesis is the `Map`
invariant: keys are unique. -/
theorem fechamento_remove_entradas (cnx : Conexoes) (ws : Nat)
    (hnd : (cnx.map Prod.fst).Nodup) :
    (∀ x, x ∈ aoFechar cnx ws ↔ x ∈ cnx ∧ x.2 ≠ ws)
      ∧ ((∀ e ∈ cnx, e.2 ≠ ws) → aoFechar cnx ws = cnx) := by
  constructor
  · intro x
    unfold aoFechar
    rw [percorrer_mem]
    constructor
    · rintro ⟨hx, hk⟩
      refine ⟨hx, fun hws => hk ?_⟩
      exact List.mem_map_of_mem Prod.fst (List.mem_filter.mpr ⟨hx, by simpa using hws⟩)
    · rintro ⟨hx, hws⟩
      refine ⟨hx, fun hk => ?_⟩
      rcases List.mem_map.mp hk with ⟨y, hy, hk2⟩
      have hy2 := List.mem_filter.mp hy
      have : y = x := chave_unica cnx hnd y x hy2.1 hx (by rw [hk2])
      exact hws (by rw [← this]; exact of_decide_eq_true hy2.2)
  · intro h
    unfold aoFechar
    exact percorrer_sem_alvo ws cnx h cnx

theorem fechamento_remove_entradas_instancia :
    ((Json.numero 2, 7) ∈
        aoFechar [(Json.numero 1, 5), (Json.numero 2, 7), (Json.numero 3, 5)] 5
      ↔ (Json.numero 2, 7) ∈
          [(Json.numero 1, 5), (Json.numero 2, 7), (Json.numero 3, 5)]
        ∧ (Json.numero 2, 7).2 ≠ 5) :=
  (fechamento_remove_entradas
    [(Json.numero 1, 5), (Json.numero 2, 7), (Json.numero 3, 5)] 5
    (by decide)).1 (Json.numero 2, 7)

/-- C7: after `conexoes.set(u, ws)` with `u` the (numeric) recipient id,
notifying a persisted message addressed to `u` while the socket `ws` is open
pushes exactly the JSON-serialized message to `ws` and to nobody else; a
message whose recipient is not registered is delivered to nobody, and the
dispatcher never changes the HTTP response of `POST /mensagens`. -/
theorem notificacao_apos_registro (cnx : Conexoes) (soquetes : Soquetes)
    (u ws : Nat) (m : Mensagem) (sq : Soquete)
    (hdest : m.destinatario_id = u)
    (hsq : buscarSoquete soquetes ws = some sq)
    (haberto : sq.readyState = wsABERTO) :
    notificarNovaMensagem (definirConexao cnx (Json.numero u) ws) soquetes m
        = enviarQuadro soquetes ws (serializarMensagem m)
      ∧ buscarSoquete
          (notificarNovaMensagem (definirConexao cnx (Json.numero u) ws) soquetes m) ws
        = some { sq with enviadas := sq.enviadas ++ [serializarMensagem m] }
      ∧ (∀ ws2, ws2 ≠ ws →
          buscarSoquete
            (notificarNovaMensagem (definirConexao cnx (Json.numero u) ws) soquetes m) ws2
          = buscarSoquete soquetes ws2)
      ∧ (∀ cnx2 : Conexoes, (∀ e ∈ cnx2, e.1 ≠ Json.numero m.destinatario_id) →
          notificarNovaMensagem cnx2 soquetes m = soquetes)
      ∧ (∀ (db : Banco) (cnx2 : Conexoes) (sq2 : Soquetes) (r d : Option Nat)
            (t : Option String),
          (enviarMensagemRota db cnx2 sq2 r d t).1 = criarMensagem db r d t) := by
  have hprincipal :
      notificarNovaMensagem (definirConexao cnx (Json.numero u) ws) soquetes m
        = enviarQuadro soquetes ws (serializarMensagem m) := by
    unfold notificarNovaMensagem
    rw [hdest, obterConexao_definida]
    dsimp only
    rw [hsq]
    dsimp only
    rw [if_pos haberto]
  refine ⟨hprincipal, ?_, ?_, ?_, ?_⟩
  · rw [hprincipal]
    exact buscarSoquete_enviada soquetes ws (serializarMensagem m) sq hsq
  · intro ws2 hws2
    rw [hprincipal]
    exact buscarSoquete_outra soquetes ws ws2 (serializarMensagem m) hws2
  · intro cnx2 h2
    exact notificar_sem_registro cnx2 soquetes m h2
  · intro db cnx2 sq2 r d t
    unfold enviarMensagemRota
    split
    · rename_i m2 db2 heq
      rw [heq]
    · rename_i e2 db2 heq
      rw [heq]

theorem notificacao_apos_registro_instancia :
    notificarNovaMensagem (definirConexao [] (Json.numero 5) 7)
        [(7, ⟨1, []⟩)] ⟨1, 1, 5, "oi", 10⟩
      = enviarQuadro [(7, ⟨1, []⟩)] 7 (serializarMensagem ⟨1, 1, 5, "oi", 10⟩) :=
  (notificacao_apos_registro [] [(7, ⟨1, []⟩)] 5 7 ⟨1, 1, 5, "oi", 10⟩ ⟨1, []⟩
    rfl rfl rfl).1

/-- C9: `Map` lookup during dispatch uses strict (`SameValueZero`) key
equality: if no registered key is strictly equal to the number that is the
persisted message's recipient id — e.g. the registration key is the string
`"5"` while the recipient id is the number `5` — the lookup misses and
nothing is delivered. -/
theorem despacho_sem_coercao (cnx : Conexoes) (soquetes : Soquetes)
    (m : Mensagem) (h : ∀ e ∈ cnx, e.1 ≠ Json.numero m.destinatario_id) :
    obterConexao cnx (Json.numero m.destinatario_id) = none
      ∧ notificarNovaMensagem cnx soquetes m = soquetes :=
  ⟨obterConexao_ausente cnx _ h, notificar_sem_registro cnx soquetes m h⟩

theorem despacho_sem_coercao_instancia :
    obterConexao [(Json.texto "5", 3)] (Json.numero (5 : Nat)) = none
      ∧ notificarNovaMensagem [(Json.texto "5", 3)] [(3, ⟨1, []⟩)]
          ⟨1, 1, 5, "oi", 10⟩ = [(3, ⟨1, []⟩)] :=
  despacho_sem_coercao [(Json.texto "5", 3)] [(3, ⟨1, []⟩)] ⟨1, 1, 5, "oi", 10⟩
    (by decide)

/-- C10: a transport frame whose payload is not valid JSON makes the
`ws.on('message')` handler throw (`JSON.parse` raises; nothing catches it)
rather than ignore the frame; the witness shows the error branch is reachable
for a concrete frame, i.e. the handler is not total. -/
theorem quadro_invalido_excecao (cnx : Conexoes) (ws : Nat) (s : String)
    (h : analisarJson s = none) :
    aoReceberMensagem cnx ws s = .error .jsonInvalido := by
  unfold aoReceberMensagem
  rw [h]

theorem quadro_invalido_excecao_instancia :
    analisarJson "oi" = none
      ∧ aoReceberMensagem [] 0 "oi" = .error .jsonInvalido :=
  ⟨rfl, quadro_invalido_excecao [] 0 "oi" rfl⟩

/-! ### Claim theorems: user and message creation -/

/-- A store with two users and no messages, used by concrete instances. -/
def dbDoisUsuarios : Banco :=
  { usuarios := [⟨1, "Ana", "555-0001"⟩, ⟨2, "Bia", "555-0002"⟩],
    mensagens := [], seqUsuarios := 3, seqMensagens := 1, agora := 50 }

/-- C4 (counterexample): `POST /mensagens` with an empty body text succeeds —
`texto TEXT NOT NULL` rejects only an absent value, not the empty string —
although the claim says a missing *or empty* required field must fail. -/
theorem mensagem_corpo_vazio_aceita :
    (criarMensagem dbDoisUsuarios (some 1) (some 2) (some "")).1
      = .ok ⟨1, 1, 2, "", 50⟩ := rfl

/-- C4 (amended): message creation fails exactly when a required field is
absent or a referenced user does not exist; an empty body string is accepted.
On success the persisted row carries the given fields, the next serial id and
the current timestamp, and is appended to the table; on failure the store is
unchanged. -/
theorem criacao_mensagem_validada (db : Banco) (r d : Option Nat)
    (t : Option String) :
    ((∃ m, (criarMensagem db r d t).1 = .ok m) ↔
        (∃ rv, r = some rv ∧ ∃ u ∈ db.usuarios, u.id = rv)
        ∧ (∃ dv, d = some dv ∧ ∃ u ∈ db.usuarios, u.id = dv)
        ∧ ∃ tv, t = some tv)
      ∧ (∀ m, (criarMensagem db r d t).1 = .ok m →
          some m.remetente_id = r ∧ some m.destinatario_id = d
          ∧ some m.texto = t ∧ m.id = db.seqMensagens
          ∧ m.enviado_em = db.agora
          ∧ (criarMensagem db r d t).2.mensagens = db.mensagens ++ [m])
      ∧ ((criarMensagem db r d t).1 = .error .erroAoEnviarMensagem →
          (criarMensagem db r d t).2 = db) := by
  rcases r with _ | rv
  · simp [criarMensagem]
  rcases d with _ | dv
  · simp [criarMensagem]
  rcases t with _ | tv
  · simp [criarMensagem]
  simp only [criarMensagem]
  split
  · rename_i h
    rw [Bool.and_eq_true] at h
    obtain ⟨hr, hd⟩ := h
    obtain ⟨ur, hur, hur2⟩ := List.any_eq_true.mp hr
    obtain ⟨ud, hud, hud2⟩ := List.any_eq_true.mp hd
    refine ⟨?_, ?_, ?_⟩
    · constructor
      · intro _
        exact ⟨⟨rv, rfl, ur, hur, of_decide_eq_true hur2⟩,
               ⟨dv, rfl, ud, hud, of_decide_eq_true hud2⟩, tv, rfl⟩
      · intro _
        exact ⟨_, rfl⟩
    · intro m hm
      have hm2 := Except.ok.inj hm
      subst hm2
      simp
    · intro hm
      exact absurd hm (by simp)
  · rename_i h
    rw [Bool.and_eq_true, not_and_or] at h
    refine ⟨?_, ?_, fun _ => rfl⟩
    · constructor
      · rintro ⟨m, hm⟩
        cases hm
      · rintro ⟨⟨rv2, hrv2, ur, hur, hur2⟩, ⟨dv2, hdv2, ud, hud, hud2⟩, _⟩
        rw [Option.some.injEq] at hrv2 hdv2
        subst hrv2
        subst hdv2
        rcases h with h | h
        · exact absurd (List.any_eq_true.mpr ⟨ur, hur, decide_eq_true hur2⟩) h
        · exact absurd (List.any_eq_true.mpr ⟨ud, hud, decide_eq_true hud2⟩) h
    · intro m hm
      exact absurd hm (by simp)

/-- C5: once a user has been created with a contact handle, creating another
user with the same handle fails with the duplicate error (the UNIQUE
constraint on `telefone`), leaves the store unchanged, and `GET /usuarios`
then lists exactly one user carrying that handle. -/
theorem usuario_duplicado_falha (db : Banco) (n1 t n2 : String)
    (u : Usuario) (db2 : Banco)
    (h : criarUsuario db (some n1) (some t) = (.ok u, db2)) :
    (criarUsuario db2 (some n2) (some t)).1 = .error .usuarioJaExiste
      ∧ (criarUsuario db2 (some n2) (some t)).2 = db2
      ∧ ((listarUsuarios db2).filter (fun v => v.telefone = t)).length = 1 := by
  simp only [criarUsuario] at h
  split at h
  · simp at h
  · rename_i hdup
    obtain ⟨h1, h2⟩ := Prod.mk.inj h
    have hu : u = { id := db.seqUsuarios, nome := n1, telefone := t } :=
      (Except.ok.inj h1).symm
    have hdb2 : db2 = { db with usuarios := db.usuarios ++ [u],
                                seqUsuarios := db.seqUsuarios + 1 } := by
      rw [← h2, hu]
    have hmem : u ∈ db2.usuarios := by
      rw [hdb2]
      simp
    have hdup2 : db2.usuarios.any (fun v => v.telefone = t) = true :=
      List.any_eq_true.mpr ⟨u, hmem, decide_eq_true (by rw [hu])⟩
    refine ⟨?_, ?_, ?_⟩
    · simp only [criarUsuario]
      rw [if_pos hdup2]
    · simp only [criarUsuario]
      rw [if_pos hdup2]
    · have hperm : List.Perm
          ((listarUsuarios db2).filter (fun v => v.telefone = t))
          (db2.usuarios.filter (fun v => v.telefone = t)) :=
        List.Perm.filter _ (List.perm_insertionSort ordemNome db2.usuarios)
      rw [hperm.length_eq, hdb2]
      simp only [List.filter_append]
      rw [List.filter_eq_nil_iff.mpr, List.nil_append]
      · simp [hu]
      · intro v hv
        simp only [decide_eq_true_eq]
        intro hvt
        exact hdup (List.any_eq_true.mpr ⟨v, hv, decide_eq_true hvt⟩)

theorem usuario_duplicado_falha_instancia :
    (criarUsuario (criarUsuario
        { usuarios := [], mensagens := [], seqUsuarios := 1, seqMensagens := 1,
          agora := 0 } (some "Ana") (some "555-0001")).2
      (some "Ana2") (some "555-0001")).1 = .error .usuarioJaExiste :=
  (usuario_duplicado_falha
    { usuarios := [], mensagens := [], seqUsuarios := 1, seqMensagens := 1,
      agora := 0 } "Ana" "555-0001" "Ana2" ⟨1, "Ana", "555-0001"⟩ _ rfl).1

/-! ### Helper lemmas about `DISTINCT ON` over sorted rows -/

theorem ordemDistinta_le {a b : Conversa} (h : ordemDistinta a b) :
    a.outro_usuario_id ≤ b.outro_usuario_id := by
  unfold ordemDistinta at h
  omega

theorem aposPrimeiro_subconjunto (k : Nat) (l : List Conversa) (x : Conversa)
    (hx : x ∈ aposPrimeiro k l) : x ∈ l := by
  induction l generalizing k with
  | nil => cases hx
  | cons b resto ih =>
    unfold aposPrimeiro at hx
    split at hx
    · exact List.mem_cons_of_mem b (ih k hx)
    · rcases List.mem_cons.mp hx with rfl | hx2
      · exact List.mem_cons_self _ _
      · exact List.mem_cons_of_mem b (ih _ hx2)

theorem aposPrimeiro_estrito (k : Nat) (l : List Conversa)
    (hs : List.Sorted ordemDistinta l)
    (hk : ∀ x ∈ l, k ≤ x.outro_usuario_id) :
    (∀ y ∈ aposPrimeiro k l, k < y.outro_usuario_id)
      ∧ List.Sorted ordemEstrita (aposPrimeiro k l) := by
  induction l generalizing k with
  | nil =>
    exact ⟨fun y hy => absurd hy (by simp [aposPrimeiro]), List.sorted_nil⟩
  | cons b resto ih =>
    rw [List.sorted_cons] at hs
    obtain ⟨hb, hresto⟩ := hs
    unfold aposPrimeiro
    split
    · rename_i hbk
      refine ih k hresto (fun x hx => ?_)
      have := ordemDistinta_le (hb x hx)
      omega
    · rename_i hbk
      have hklt : k < b.outro_usuario_id := by
        have := hk b (List.mem_cons_self b resto)
        omega
      obtain ⟨hlb, hordenada⟩ :=
        ih b.outro_usuario_id hresto (fun x hx => ordemDistinta_le (hb x hx))
      constructor
      · intro y hy
        rcases List.mem_cons.mp hy with rfl | hy2
        · exact hklt
        · exact lt_trans hklt (hlb y hy2)
      · rw [List.sorted_cons]
        exact ⟨fun y hy => hlb y hy, hordenada⟩

theorem aposPrimeiro_maximo (k : Nat) (l : List Conversa)
    (hs : List.Sorted ordemDistinta l)
    (hk : ∀ x ∈ l, k ≤ x.outro_usuario_id)
    (r : Conversa) (hr : r ∈ aposPrimeiro k l) :
    ∀ x ∈ l, x.outro_usuario_id = r.outro_usuario_id →
      x.enviado_em ≤ r.enviado_em := by
  induction l generalizing k with
  | nil => cases hr
  | cons b resto ih =>
    rw [List.sorted_cons] at hs
    obtain ⟨hb, hresto⟩ := hs
    have hkresto : ∀ x ∈ resto, k ≤ x.outro_usuario_id := fun x hx => by
      have := ordemDistinta_le (hb x hx)
      have := hk b (List.mem_cons_self b resto)
      omega
    unfold aposPrimeiro at hr
    split at hr
    · rename_i hbk
      have hkr : k < r.outro_usuario_id :=
        (aposPrimeiro_estrito k resto hresto hkresto).1 r hr
      intro x hx hxr
      rcases List.mem_cons.mp hx with rfl | hx2
      · omega
      · exact ih k hresto hkresto hr x hx2 hxr
    · rename_i hbk
      rcases List.mem_cons.mp hr with rfl | hr2
      · intro x hx hxr
        rcases List.mem_cons.mp hx with rfl | hx2
        · exact le_refl _
        · have := hb x hx2
          unfold ordemDistinta at this
          omega
      · have hbr : b.outro_usuario_id < r.outro_usuario_id :=
          (aposPrimeiro_estrito b.outro_usuario_id resto hresto
            (fun x hx => ordemDistinta_le (hb x hx))).1 r hr2
        intro x hx hxr
        rcases List.mem_cons.mp hx with rfl | hx2
        · omega
        · exact ih b.outro_usuario_id hresto
            (fun x2 hx2b => ordemDistinta_le (hb x2 hx2b)) hr2 x hx2 hxr

theorem aposPrimeiro_chaves (k : Nat) (l : List Conversa)
    (hs : List.Sorted ordemDistinta l)
    (hk : ∀ x ∈ l, k ≤ x.outro_usuario_id)
    (c : Nat) (hc : c ∈ l.map (fun r => r.outro_usuario_id)) :
    c = k ∨ c ∈ (aposPrimeiro k l).map (fun r => r.outro_usuario_id) := by
  induction l generalizing k with
  | nil => cases hc
  | cons b resto ih =>
    rw [List.sorted_cons] at hs
    obtain ⟨hb, hresto⟩ := hs
    have hkresto : ∀ x ∈ resto, k ≤ x.outro_usuario_id := fun x hx => by
      have := ordemDistinta_le (hb x hx)
      have := hk b (List.mem_cons_self b resto)
      omega
    rw [List.map_cons] at hc
    unfold aposPrimeiro
    split
    · rename_i hbk
      rcases List.mem_cons.mp hc with rfl | hc2
      · exact Or.inl hbk
      · exact ih k hresto hkresto hc2
    · rename_i hbk
      rcases List.mem_cons.mp hc with rfl | hc2
      · exact Or.inr (by rw [List.map_cons]; exact List.mem_cons_self ..)
      · rcases ih b.outro_usuario_id hresto
            (fun x hx => ordemDistinta_le (hb x hx)) hc2 with hcb | hcm
        · exact Or.inr (by rw [List.map_cons, hcb]; exact List.mem_cons_self ..)
        · exact Or.inr (by rw [List.map_cons]; exact List.mem_cons_of_mem _ hcm)

theorem distinct_subconjunto (l : List Conversa) (x : Conversa)
    (hx : x ∈ distinctOnOutro l) : x ∈ l := by
  cases l with
  | nil => cases hx
  | cons a resto =>
    rcases List.mem_cons.mp hx with rfl | hx2
    · exact List.mem_cons_self _ _
    · exact List.mem_cons_of_mem a (aposPrimeiro_subconjunto _ resto x hx2)

theorem distinct_estrito (l : List Conversa)
    (hs : List.Sorted ordemDistinta l) :
    List.Sorted ordemEstrita (distinctOnOutro l) := by
  cases l with
  | nil => exact List.sorted_nil
  | cons a resto =>
    rw [List.sorted_cons] at hs
    obtain ⟨ha, hresto⟩ := hs
    obtain ⟨hlb, hordenada⟩ := aposPrimeiro_estrito a.outro_usuario_id resto
      hresto (fun x hx => ordemDistinta_le (ha x hx))
    rw [show distinctOnOutro (a :: resto)
        = a :: aposPrimeiro a.outro_usuario_id resto from rfl, List.sorted_cons]
    exact ⟨fun y hy => hlb y hy, hordenada⟩

theorem distinct_chaves (l : List Conversa)
    (hs : List.Sorted ordemDistinta l) (c : Nat) :
    c ∈ (distinctOnOutro l).map (fun r => r.outro_usuario_id)
      ↔ c ∈ l.map (fun r => r.outro_usuario_id) := by
  constructor
  · intro hc
    rcases List.mem_map.mp hc with ⟨r, hr, hrc⟩
    exact List.mem_map.mpr ⟨r, distinct_subconjunto l r hr, hrc⟩
  · intro hc
    cases l with
    | nil => cases hc
    | cons a resto =>
      rw [List.sorted_cons] at hs
      obtain ⟨ha, hresto⟩ := hs
      rw [show distinctOnOutro (a :: resto)
          = a :: aposPrimeiro a.outro_usuario_id resto from rfl]
      rw [List.map_cons] at hc ⊢
      rcases List.mem_cons.mp hc with rfl | hc2
      · exact List.mem_cons_self _ _
      · rcases aposPrimeiro_chaves a.outro_usuario_id resto hresto
            (fun x hx => ordemDistinta_le (ha x hx)) c hc2 with hca | hcm
        · rw [hca]
          exact List.mem_cons_self _ _
        · exact List.mem_cons_of_mem _ hcm

theorem distinct_maximo (l : List Conversa)
    (hs : List.Sorted ordemDistinta l) (r : Conversa)
    (hr : r ∈ distinctOnOutro l) :
    ∀ x ∈ l, x.outro_usuario_id = r.outro_usuario_id →
      x.enviado_em ≤ r.enviado_em := by
  cases l with
  | nil => cases hr
  | cons a resto =>
    rw [List.sorted_cons] at hs
    obtain ⟨ha, hresto⟩ := hs
    rw [show distinctOnOutro (a :: resto)
        = a :: aposPrimeiro a.outro_usuario_id resto from rfl] at hr
    rcases List.mem_cons.mp hr with rfl | hr2
    · intro x hx hxr
      rcases List.mem_cons.mp hx with rfl | hx2
      · exact le_refl _
      · have := ha x hx2
        unfold ordemDistinta at this
        omega
    · have hra : a.outro_usuario_id < r.outro_usuario_id :=
        (aposPrimeiro_estrito a.outro_usuario_id resto hresto
          (fun x hx => ordemDistinta_le (ha x hx))).1 r hr2
      intro x hx hxr
      rcases List.mem_cons.mp hx with rfl | hx2
      · omega
      · exact aposPrimeiro_maximo a.outro_usuario_id resto hresto
          (fun x2 hx2b => ordemDistinta_le (ha x2 hx2b)) r hr2 x hx2 hxr

theorem ordenadas_ordenadas (db : Banco) (uid : Nat) :
    List.Sorted ordemDistinta (ordenadasResumo db uid) :=
  List.sorted_insertionSort ordemDistinta _

theorem ordenadas_perm (db : Banco) (uid : Nat) :
    List.Perm (ordenadasResumo db uid) (linhasResumo db uid) :=
  (List.perm_insertionSort ordemDistinta _).trans
    (List.perm_insertionSort ordemDesc _)

theorem linhaResumoDe_campos (us : List Usuario) (uid : Nat) (m : Mensagem)
    (r : Conversa) (h : linhaResumoDe us uid m = some r) :
    envolve uid m ∧ r.outro_usuario_id = contraparte uid m
      ∧ r.ultima_mensagem = m.texto ∧ r.enviado_em = m.enviado_em := by
  unfold linhaResumoDe at h
  split at h
  · split at h
    · rename_i hcond
      have hr := (Option.some.inj h).symm
      subst hr
      exact ⟨hcond, rfl, rfl, rfl⟩
    · cases h
  · cases h

theorem linhaResumoDe_existe (us : List Usuario) (uid : Nat) (m : Mensagem)
    (henv : envolve uid m)
    (h1 : ∃ u ∈ us, u.id = m.remetente_id)
    (h2 : ∃ u ∈ us, u.id = m.destinatario_id) :
    ∃ r, linhaResumoDe us uid m = some r
      ∧ r.outro_usuario_id = contraparte uid m
      ∧ r.ultima_mensagem = m.texto ∧ r.enviado_em = m.enviado_em := by
  have hb1 : buscaUsuario us m.remetente_id ≠ none := by
    unfold buscaUsuario
    rw [Ne, List.find?_eq_none]
    push_neg
    obtain ⟨u, hu, hid⟩ := h1
    exact ⟨u, hu, by simpa using hid⟩
  have hb2 : buscaUsuario us m.destinatario_id ≠ none := by
    unfold buscaUsuario
    rw [Ne, List.find?_eq_none]
    push_neg
    obtain ⟨u, hu, hid⟩ := h2
    exact ⟨u, hu, by simpa using hid⟩
  rcases hc1 : buscaUsuario us m.remetente_id with _ | u1
  · exact absurd hc1 hb1
  rcases hc2 : buscaUsuario us m.destinatario_id with _ | u2
  · exact absurd hc2 hb2
  refine ⟨{ outro_usuario_id :=
              if m.remetente_id = uid then m.destinatario_id
              else m.remetente_id,
            outro_usuario_nome :=
              if m.remetente_id = uid then u2.nome else u1.nome,
            ultima_mensagem := m.texto, enviado_em := m.enviado_em },
          ?_, rfl, rfl, rfl⟩
  unfold linhaResumoDe
  rw [hc1, hc2]
  dsimp only
  have henv2 : m.remetente_id = uid ∨ m.destinatario_id = uid := henv
  rw [if_pos henv2]

/-! ### Claim theorems: conversation summaries -/

/-- C2: for every user, `GET /conversas/:usuario_id` yields exactly one row
per distinct counterparty the user has exchanged a message with, and each
row's text/timestamp come from a message of that counterparty's group whose
timestamp is maximal in the group.  The hypothesis is referential integrity
(both ends of every message exist), which the foreign keys of `criarTabelas`
enforce. -/
theorem resumo_uma_linha_por_contraparte (db : Banco) (uid : Nat)
    (hfk : ∀ m ∈ db.mensagens,
      (∃ u ∈ db.usuarios, u.id = m.remetente_id)
        ∧ (∃ u ∈ db.usuarios, u.id = m.destinatario_id)) :
    (∀ c : Nat,
        c ∈ (buscarUltimasConversas db uid).map (fun r => r.outro_usuario_id)
          ↔ ∃ m ∈ db.mensagens, envolve uid m ∧ contraparte uid m = c)
      ∧ ((buscarUltimasConversas db uid).map
          (fun r => r.outro_usuario_id)).Nodup
      ∧ (∀ r ∈ buscarUltimasConversas db uid,
          (∃ m ∈ db.mensagens, envolve uid m
            ∧ contraparte uid m = r.outro_usuario_id
            ∧ m.texto = r.ultima_mensagem ∧ m.enviado_em = r.enviado_em)
          ∧ (∀ m ∈ db.mensagens, envolve uid m →
              contraparte uid m = r.outro_usuario_id →
              m.enviado_em ≤ r.enviado_em)) := by
  have hsorted := ordenadas_ordenadas db uid
  have hperm := ordenadas_perm db uid
  refine ⟨?_, ?_, ?_⟩
  · intro c
    unfold buscarUltimasConversas
    rw [distinct_chaves _ hsorted c]
    constructor
    · intro hc
      have hc2 : c ∈ (linhasResumo db uid).map (fun r => r.outro_usuario_id) :=
        (hperm.map _).mem_iff.mp hc
      rcases List.mem_map.mp hc2 with ⟨r, hr, hrc⟩
      rcases List.mem_filterMap.mp hr with ⟨m, hm, hmr⟩
      obtain ⟨henv, houtro, _, _⟩ := linhaResumoDe_campos _ _ _ _ hmr
      exact ⟨m, hm, henv, by rw [← houtro, hrc]⟩
    · rintro ⟨m, hm, henv, hc⟩
      obtain ⟨r, hmr, houtro, _, _⟩ :=
        linhaResumoDe_existe db.usuarios uid m henv (hfk m hm).1 (hfk m hm).2
      refine (hperm.map _).mem_iff.mpr
        (List.mem_map.mpr ⟨r, ?_, by rw [houtro, hc]⟩)
      exact List.mem_filterMap.mpr ⟨m, hm, hmr⟩
  · have hstrict := distinct_estrito _ hsorted
    exact List.pairwise_map.mpr (hstrict.imp (fun h => Nat.ne_of_lt h))
  · intro r hr
    have hrl : r ∈ linhasResumo db uid :=
      hperm.mem_iff.mp (distinct_subconjunto _ _ hr)
    rcases List.mem_filterMap.mp hrl with ⟨m, hm, hmr⟩
    obtain ⟨henv, houtro, htexto, hts⟩ := linhaResumoDe_campos _ _ _ _ hmr
    constructor
    · exact ⟨m, hm, henv, houtro.symm, htexto.symm, hts.symm⟩
    · intro m2 hm2 henv2 hc2
      obtain ⟨r2, hmr2, houtro2, htexto2, hts2⟩ :=
        linhaResumoDe_existe db.usuarios uid m2 henv2
          (hfk m2 hm2).1 (hfk m2 hm2).2
      have hr2 : r2 ∈ ordenadasResumo db uid :=
        hperm.mem_iff.mpr (List.mem_filterMap.mpr ⟨m2, hm2, hmr2⟩)
      have hmax := distinct_maximo _ hsorted r hr r2 hr2
        (by rw [houtro2, hc2])
      rw [hts2] at hmax
      exact hmax

/-- Example store: user 1 exchanged messages with user 2 (latest at time 10)
and with user 3 (latest at time 20). -/
def dbExemploOrdem : Banco :=
  { usuarios := [⟨1, "Ana", "t1"⟩, ⟨2, "Bia", "t2"⟩, ⟨3, "Carla", "t3"⟩],
    mensagens := [⟨1, 1, 2, "oi", 10⟩, ⟨2, 1, 3, "ola", 20⟩],
    seqUsuarios := 4, seqMensagens := 3, agora := 30 }

theorem resumo_uma_linha_por_contraparte_instancia :
    2 ∈ (buscarUltimasConversas dbExemploOrdem 1).map
        (fun r => r.outro_usuario_id)
      ↔ ∃ m ∈ dbExemploOrdem.mensagens, envolve 1 m ∧ contraparte 1 m = 2 :=
  (resumo_uma_linha_por_contraparte dbExemploOrdem 1 (by decide)).1 2

/-- C1 (counterexample): for the example store the summaries of user 1 come
out ordered `[counterparty 2 (time 10), counterparty 3 (time 20)]` — not
ordered by timestamp descending: the most recently contacted counterparty
(user 3) is last, not first. -/
theorem conversas_nao_por_recencia :
    (buscarUltimasConversas dbExemploOrdem 1).map
        (fun r => (r.outro_usuario_id, r.enviado_em)) = [(2, 10), (3, 20)]
      ∧ ¬ List.Pairwise (fun a b => b.enviado_em ≤ a.enviado_em)
          (buscarUltimasConversas dbExemploOrdem 1) := by
  exact ⟨by decide, by decide⟩

/-- C1 (amended): the rows of `GET /conversas/:usuario_id` are ordered by
counterparty id, strictly ascending — the order the trailing
`ORDER BY outro_usuario_id, enviado_em DESC` of the `DISTINCT ON` query
leaves them in — and not by recency of contact. -/
theorem conversas_ordenadas_por_contraparte (db : Banco) (uid : Nat) :
    List.Sorted ordemEstrita (buscarUltimasConversas db uid) :=
  distinct_estrito _ (ordenadas_ordenadas db uid)

/-- Two stores with the *same* users and the *same multiset* of messages —
only the physical row order differs.  Both messages tie on `enviado_em`. -/
def dbEmpateA : Banco :=
  { usuarios := [⟨1, "Ana", "t1"⟩, ⟨2, "Bia", "t2"⟩],
    mensagens := [⟨1, 2, 1, "a", 10⟩, ⟨2, 1, 2, "b", 10⟩],
    seqUsuarios := 3, seqMensagens := 3, agora := 30 }

/-- `dbEmpateA` with its two message rows delivered in the other order. -/
def dbEmpateB : Banco :=
  { usuarios := [⟨1, "Ana", "t1"⟩, ⟨2, "Bia", "t2"⟩],
    mensagens := [⟨2, 1, 2, "b", 10⟩, ⟨1, 2, 1, "a", 10⟩],
    seqUsuarios := 3, seqMensagens := 3, agora := 30 }

/-- C8 (counterexample): the query has no tie-break beyond `enviado_em`, so
with two exactly-tied messages the row `DISTINCT ON` picks depends on the
order the store delivers the rows, which the stored data does not determine:
the same users and the same multiset of messages yield different summaries
under the two delivery orders. -/
theorem resumo_empate_depende_da_ordem :
    dbEmpateA.usuarios = dbEmpateB.usuarios
      ∧ List.Perm dbEmpateA.mensagens dbEmpateB.mensagens
      ∧ buscarUltimasConversas dbEmpateA 1 ≠ buscarUltimasConversas dbEmpateB 1
      ∧ (buscarUltimasConversas dbEmpateA 1).map (fun r => r.ultima_mensagem)
          = ["a"]
      ∧ (buscarUltimasConversas dbEmpateB 1).map (fun r => r.ultima_mensagem)
          = ["b"] := by
  exact ⟨rfl, by decide, by decide, by decide, by decide⟩

theorem mapa_pares_igual (l1 l2 : List Conversa)
    (hk : l1.map (fun r => r.outro_usuario_id)
        = l2.map (fun r => r.outro_usuario_id))
    (hts : ∀ a ∈ l1, ∀ b ∈ l2, a.outro_usuario_id = b.outro_usuario_id →
        a.enviado_em = b.enviado_em) :
    l1.map (fun r => (r.outro_usuario_id, r.enviado_em))
      = l2.map (fun r => (r.outro_usuario_id, r.enviado_em)) := by
  induction l1 generalizing l2 with
  | nil =>
    cases l2 with
    | nil => rfl
    | cons b resto2 => simp at hk
  | cons a resto ih =>
    cases l2 with
    | nil => simp at hk
    | cons b resto2 =>
      simp only [List.map_cons, List.cons.injEq] at hk ⊢
      have hab := hts a (List.mem_cons_self _ _) b (List.mem_cons_self _ _) hk.1
      refine ⟨?_, ih resto2 hk.2 (fun x hx y hy =>
        hts x (List.mem_cons_of_mem a hx) y (List.mem_cons_of_mem b hy))⟩
      rw [Prod.mk.injEq]
      exact ⟨hk.1, hab⟩

theorem chaves_iguais (l1 l2 : List Nat)
    (h1 : List.Sorted (fun a b => a < b) l1)
    (h2 : List.Sorted (fun a b => a < b) l2)
    (hm : ∀ c, c ∈ l1 ↔ c ∈ l2) : l1 = l2 := by
  haveI : IsAntisymm Nat (fun a b => a < b) :=
    ⟨fun a b hab hba => absurd hab (Nat.lt_asymm hba)⟩
  have hn1 : l1.Nodup := h1.imp fun h => Nat.ne_of_lt h
  have hn2 : l2.Nodup := h2.imp fun h => Nat.ne_of_lt h
  exact List.eq_of_perm_of_sorted
    ((List.perm_ext_iff_of_nodup hn1 hn2).mpr hm) h1 h2

/-- C8 (amended): the summary query is deterministic only up to the tie:
for the same users and the same multiset of stored messages, the counterparty
set and each counterparty's (maximal) timestamp are uniquely determined — but
the counterexample above shows the *text* picked among equally-timestamped
messages depends on the store's row delivery order, which no fixed tie-break
(such as message id) pins down. -/
theorem resumo_determinado_a_menos_de_empate (dbA dbB : Banco) (uid : Nat)
    (hu : dbA.usuarios = dbB.usuarios)
    (hm : List.Perm dbA.mensagens dbB.mensagens) :
    (buscarUltimasConversas dbA uid).map
        (fun r => (r.outro_usuario_id, r.enviado_em))
      = (buscarUltimasConversas dbB uid).map
          (fun r => (r.outro_usuario_id, r.enviado_em)) := by
  have hlperm : List.Perm (linhasResumo dbA uid) (linhasResumo dbB uid) := by
    unfold linhasResumo
    rw [hu]
    exact hm.filterMap _
  have hsA := ordenadas_ordenadas dbA uid
  have hsB := ordenadas_ordenadas dbB uid
  have hpA := ordenadas_perm dbA uid
  have hpB := ordenadas_perm dbB uid
  have hmemord : ∀ x : Conversa,
      x ∈ ordenadasResumo dbA uid ↔ x ∈ ordenadasResumo dbB uid := by
    intro x
    rw [hpA.mem_iff, hpB.mem_iff, hlperm.mem_iff]
  apply mapa_pares_igual
  · apply chaves_iguais
    · exact List.pairwise_map.mpr (distinct_estrito _ hsA)
    · exact List.pairwise_map.mpr (distinct_estrito _ hsB)
    · intro c
      unfold buscarUltimasConversas
      rw [distinct_chaves _ hsA c, distinct_chaves _ hsB c,
        (hpA.map _).mem_iff, (hpB.map _).mem_iff, (hlperm.map _).mem_iff]
  · intro a ha b hb hab
    have haord : a ∈ ordenadasResumo dbB uid :=
      (hmemord a).mp (distinct_subconjunto _ _ ha)
    have hbord : b ∈ ordenadasResumo dbA uid :=
      (hmemord b).mpr (distinct_subconjunto _ _ hb)
    have h1 := distinct_maximo _ hsB b hb a haord hab
    have h2 := distinct_maximo _ hsA a ha b hbord hab.symm
    omega

theorem resumo_determinado_instancia :
    (buscarUltimasConversas dbEmpateA 1).map
        (fun r => (r.outro_usuario_id, r.enviado_em))
      = (buscarUltimasConversas dbEmpateB 1).map
          (fun r => (r.outro_usuario_id, r.enviado_em)) :=
  resumo_determinado_a_menos_de_empate dbEmpateA dbEmpateB 1 rfl (by decide)

/-! ### Helper lemmas about `GET /mensagens/:usuario1_id/:usuario2_id` -/

theorem linhaConversaDe_simetrica (us : List Usuario) (a b : Nat)
    (m : Mensagem) : linhaConversaDe us a b m = linhaConversaDe us b a m := by
  unfold linhaConversaDe
  cases buscaUsuario us m.remetente_id with
  | none => rfl
  | some u1 =>
    cases buscaUsuario us m.destinatario_id with
    | none => rfl
    | some u2 =>
      dsimp only
      exact if_congr or_comm rfl rfl

theorem linhaConversaDe_campos (us : List Usuario) (a b : Nat) (m : Mensagem)
    (r : LinhaMensagem) (h : linhaConversaDe us a b m = some r) :
    ((m.remetente_id = a ∧ m.destinatario_id = b)
        ∨ (m.remetente_id = b ∧ m.destinatario_id = a))
      ∧ r.id = m.id ∧ r.remetente_id = m.remetente_id
      ∧ r.destinatario_id = m.destinatario_id
      ∧ r.texto = m.texto ∧ r.enviado_em = m.enviado_em
      ∧ ∃ u1 u2, buscaUsuario us m.remetente_id = some u1
          ∧ buscaUsuario us m.destinatario_id = some u2
          ∧ r.remetente_nome = u1.nome ∧ r.destinatario_nome = u2.nome := by
  unfold linhaConversaDe at h
  split at h
  · rename_i u1 u2 heq1 heq2
    split at h
    · rename_i hcond
      have hr := (Option.some.inj h).symm
      subst hr
      exact ⟨hcond, rfl, rfl, rfl, rfl, rfl, u1, u2, heq1, heq2, rfl, rfl⟩
    · cases h
  · cases h

theorem linhaConversaDe_existe (us : List Usuario) (a b : Nat) (m : Mensagem)
    (hcond : (m.remetente_id = a ∧ m.destinatario_id = b)
        ∨ (m.remetente_id = b ∧ m.destinatario_id = a))
    (h1 : ∃ u ∈ us, u.id = m.remetente_id)
    (h2 : ∃ u ∈ us, u.id = m.destinatario_id) :
    ∃ r, linhaConversaDe us a b m = some r := by
  have hb1 : buscaUsuario us m.remetente_id ≠ none := by
    unfold buscaUsuario
    rw [Ne, List.find?_eq_none]
    push_neg
    obtain ⟨u, hu, hid⟩ := h1
    exact ⟨u, hu, by simpa using hid⟩
  have hb2 : buscaUsuario us m.destinatario_id ≠ none := by
    unfold buscaUsuario
    rw [Ne, List.find?_eq_none]
    push_neg
    obtain ⟨u, hu, hid⟩ := h2
    exact ⟨u, hu, by simpa using hid⟩
  rcases hc1 : buscaUsuario us m.remetente_id with _ | u1
  · exact absurd hc1 hb1
  rcases hc2 : buscaUsuario us m.destinatario_id with _ | u2
  · exact absurd hc2 hb2
  refine ⟨{ id := m.id, remetente_id := m.remetente_id,
            destinatario_id := m.destinatario_id, texto := m.texto,
            enviado_em := m.enviado_em, remetente_nome := u1.nome,
            destinatario_nome := u2.nome }, ?_⟩
  unfold linhaConversaDe
  rw [hc1, hc2]
  dsimp only
  rw [if_pos hcond]

theorem buscaUsuario_unico (us : List Usuario)
    (hnd : (us.map (fun u => u.id)).Nodup) (u : Usuario) (hu : u ∈ us) :
    buscaUsuario us u.id = some u := by
  induction us with
  | nil => cases hu
  | cons e resto ih =>
    rw [List.map_cons, List.nodup_cons] at hnd
    rcases List.mem_cons.mp hu with rfl | hu2
    · unfold buscaUsuario
      rw [List.find?_cons_of_pos _ (by simp)]
    · by_cases he : e.id = u.id
      · exact absurd (he ▸ List.mem_map_of_mem (fun v => v.id) hu2) hnd.1
      · unfold buscaUsuario at ih ⊢
        rw [List.find?_cons_of_neg _ (by simpa using he)]
        exact ih hnd.2 hu2

/-! ### Claim theorem: conversations between two users -/

/-- C3: `GET /mensagens/:usuario1_id/:usuario2_id` is symmetric in its two
parameters (identical sequences, the `WHERE` clause being symmetric and the
sort deterministic per store state), is sorted by sent timestamp ascending,
and consists exactly of the messages whose (sender, recipient) pair is
`(a, b)` or `(b, a)` — none dropped, given referential integrity — each
enriched with the sender's and the recipient's display names. -/
theorem conversa_simetrica_ordenada (db : Banco) (a b : Nat)
    (hids : (db.usuarios.map (fun u => u.id)).Nodup)
    (hfk : ∀ m ∈ db.mensagens,
      (∃ u ∈ db.usuarios, u.id = m.remetente_id)
        ∧ (∃ u ∈ db.usuarios, u.id = m.destinatario_id)) :
    buscarConversa db a b = buscarConversa db b a
      ∧ List.Sorted ordemAsc (buscarConversa db a b)
      ∧ List.Perm (buscarConversa db a b)
          (db.mensagens.filterMap (linhaConversaDe db.usuarios a b))
      ∧ (∀ r, r ∈ buscarConversa db a b ↔
          ∃ m ∈ db.mensagens,
            ((m.remetente_id = a ∧ m.destinatario_id = b)
              ∨ (m.remetente_id = b ∧ m.destinatario_id = a))
            ∧ linhaConversaDe db.usuarios a b m = some r)
      ∧ (∀ m ∈ db.mensagens,
          ((m.remetente_id = a ∧ m.destinatario_id = b)
            ∨ (m.remetente_id = b ∧ m.destinatario_id = a)) →
          ∃ r ∈ buscarConversa db a b,
            r.id = m.id ∧ r.texto = m.texto ∧ r.enviado_em = m.enviado_em)
      ∧ (∀ r ∈ buscarConversa db a b, ∀ u ∈ db.usuarios,
          (u.id = r.remetente_id → r.remetente_nome = u.nome)
          ∧ (u.id = r.destinatario_id → r.destinatario_nome = u.nome)) := by
  have hperm : List.Perm (buscarConversa db a b)
      (db.mensagens.filterMap (linhaConversaDe db.usuarios a b)) :=
    List.perm_insertionSort ordemAsc _
  refine ⟨?_, List.sorted_insertionSort ordemAsc _, hperm, ?_, ?_, ?_⟩
  · unfold buscarConversa
    congr 1
    exact List.filterMap_congr
      (fun m _ => linhaConversaDe_simetrica db.usuarios a b m)
  · intro r
    rw [hperm.mem_iff, List.mem_filterMap]
    constructor
    · rintro ⟨m, hm, hmr⟩
      exact ⟨m, hm, (linhaConversaDe_campos db.usuarios a b m r hmr).1, hmr⟩
    · rintro ⟨m, hm, _, hmr⟩
      exact ⟨m, hm, hmr⟩
  · intro m hm hcond
    obtain ⟨r, hmr⟩ := linhaConversaDe_existe db.usuarios a b m hcond
      (hfk m hm).1 (hfk m hm).2
    obtain ⟨_, hid, _, _, htexto, hts, _⟩ :=
      linhaConversaDe_campos db.usuarios a b m r hmr
    refine ⟨r, ?_, hid, htexto, hts⟩
    exact hperm.mem_iff.mpr (List.mem_filterMap.mpr ⟨m, hm, hmr⟩)
  · intro r hr u hu
    rcases List.mem_filterMap.mp (hperm.mem_iff.mp hr) with ⟨m, hm, hmr⟩
    obtain ⟨_, _, hrrem, hrdest, _, _, u1, u2, hbu1, hbu2, hn1, hn2⟩ :=
      linhaConversaDe_campos db.usuarios a b m r hmr
    constructor
    · intro hurem
      have : buscaUsuario db.usuarios u.id = some u :=
        buscaUsuario_unico db.usuarios hids u hu
      rw [hurem, hrrem, hbu1] at this
      rw [hn1, Option.some.inj this]
    · intro hudest
      have : buscaUsuario db.usuarios u.id = some u :=
        buscaUsuario_unico db.usuarios hids u hu
      rw [hudest, hrdest, hbu2] at this
      rw [hn2, Option.some.inj this]

theorem conversa_simetrica_ordenada_instancia :
    buscarConversa dbExemploOrdem 1 2 = buscarConversa dbExemploOrdem 2 1 :=
  (conversa_simetrica_ordenada dbExemploOrdem 1 2 (by decide) (by decide)).1
